import Mathlib

/-!
Shallow embedding of the MarketplaceAPI catalog service (src/main.py).

The service stores items (id, name, description, price), categories
(id, unique name) and a many-to-many item/category association table.
The HTTP routes are modelled as pure functions over an explicit `Store`
state; an HTTP error response is `Except.error code`, a success is
`Except.ok (payload, newStore)`.  An error raised before `db.commit()`
rolls the session back, so the error branches carry no store: the caller
keeps the pre-request store (`resultState`).
-/

namespace MarketplaceAPI

/-- A row of the `items` table (src/main.py, class Item). -/
structure Item where
  id : Nat
  name : String
  description : Option String
  price : ℚ
deriving DecidableEq, Repr

/-- A row of the `categories` table (src/main.py, class Category);
`name` carries a uniqueness constraint in the schema. -/
structure Category where
  id : Nat
  name : String
deriving DecidableEq, Repr

/-- The whole database: the two tables, the `item_category` association
table as a list of (item_id, category_id) pairs, and the primary-key
counters. -/
structure Store where
  items : List Item
  categories : List Category
  assoc : List (Nat × Nat)
  nextItemId : Nat
  nextCategoryId : Nat
deriving DecidableEq, Repr

/-- The validated request body for create/update item
(pydantic schema ItemCreate = ItemBase). -/
structure ItemCreate where
  name : String
  description : Option String
  price : ℚ
deriving DecidableEq, Repr

/-- The ItemResponse payload: item fields plus the names of its
categories. -/
structure ItemResponse where
  id : Nat
  name : String
  description : Option String
  price : ℚ
  categories : List String
deriving DecidableEq, Repr

/-- The CategoryResponse payload: category fields plus its items as
fully materialized ItemResponse values. -/
structure CategoryResponse where
  id : Nat
  name : String
  items : List ItemResponse
deriving DecidableEq, Repr

/-- `[category.name for category in item.categories]`: the names of the
categories associated with item id `iid`, in table order. -/
def itemCategoryNames (s : Store) (iid : Nat) : List String :=
  (s.categories.filter (fun c => decide ((iid, c.id) ∈ s.assoc))).map Category.name

/-- Serialize an item row as an ItemResponse against store `s`. -/
def itemResponse (s : Store) (i : Item) : ItemResponse :=
  ⟨i.id, i.name, i.description, i.price, itemCategoryNames s i.id⟩

/-- `category.items`: the item rows associated with category id `cid`. -/
def categoryItems (s : Store) (cid : Nat) : List Item :=
  s.items.filter (fun i => decide ((i.id, cid) ∈ s.assoc))

/-- Serialize a category row as a CategoryResponse against store `s`. -/
def categoryResponse (s : Store) (c : Category) : CategoryResponse :=
  ⟨c.id, c.name, (categoryItems s c.id).map (itemResponse s)⟩

/-- POST /items/ (create_item): insert a new row with a fresh id and
return it; a fresh item has no associations. -/
def create_item (s : Store) (b : ItemCreate) : Except Nat (ItemResponse × Store) :=
  let it : Item := ⟨s.nextItemId, b.name, b.description, b.price⟩
  let s2 : Store := { s with items := s.items ++ [it], nextItemId := s.nextItemId + 1 }
  Except.ok (itemResponse s2 it, s2)

/-- PUT /items/{item_id} (update_item): 404 if the id is unknown,
otherwise replace name, description and price of that row and return
the refreshed row with its current category names. -/
def update_item (s : Store) (iid : Nat) (b : ItemCreate) : Except Nat (ItemResponse × Store) :=
  match s.items.find? (fun i => i.id == iid) with
  | none => Except.error 404
  | some _ =>
    let s2 : Store := { s with items := s.items.map (fun i =>
      if i.id = iid then { i with name := b.name, description := b.description, price := b.price } else i) }
    Except.ok (⟨iid, b.name, b.description, b.price, itemCategoryNames s2 iid⟩, s2)

/-- DELETE /items/{item_id} (delete_item): 404 if unknown, otherwise
remove the row and its association rows. -/
def delete_item (s : Store) (iid : Nat) : Except Nat (String × Store) :=
  match s.items.find? (fun i => i.id == iid) with
  | none => Except.error 404
  | some _ =>
    let s2 : Store := { s with
      items := s.items.filter (fun i => i.id != iid),
      assoc := s.assoc.filter (fun p => p.1 != iid) }
    Except.ok ("Товар удален", s2)

/-- POST /categories/ (create_category): 400 if a category with that
name already exists, otherwise insert with a fresh id. -/
def create_category (s : Store) (nm : String) : Except Nat (CategoryResponse × Store) :=
  match s.categories.find? (fun c => c.name == nm) with
  | some _ => Except.error 400
  | none =>
    let c : Category := ⟨s.nextCategoryId, nm⟩
    let s2 : Store := { s with categories := s.categories ++ [c], nextCategoryId := s.nextCategoryId + 1 }
    Except.ok (categoryResponse s2 c, s2)

/-- GET /categories/ (get_categories): every category with nested
items. -/
def get_categories (s : Store) : List CategoryResponse :=
  s.categories.map (categoryResponse s)

/-- POST /categories/{category_id}/items/{item_id}
(add_item_to_category): 404 if the category or the item is unknown;
append the association pair only when it is not already present; return
the item with its current category names. -/
def add_item_to_category (s : Store) (cid iid : Nat) : Except Nat (ItemResponse × Store) :=
  match s.categories.find? (fun c => c.id == cid) with
  | none => Except.error 404
  | some _ =>
    match s.items.find? (fun i => i.id == iid) with
    | none => Except.error 404
    | some it =>
      let s2 : Store := if (iid, cid) ∈ s.assoc then s
                        else { s with assoc := s.assoc ++ [(iid, cid)] }
      Except.ok (itemResponse s2 it, s2)

/-- PUT /categories/{category_id} (update_category): 404 if the
category is unknown; 400 if another category (id comparison) already
has the new name; rename; when item_ids is supplied, load the rows
whose id is in the list, 404 unless as many rows were found as ids
supplied, otherwise replace the membership with exactly those rows. -/
def update_category (s : Store) (cid : Nat) (nm : String) (item_ids : Option (List Nat)) :
    Except Nat (CategoryResponse × Store) :=
  match s.categories.find? (fun c => c.id == cid) with
  | none => Except.error 404
  | some _ =>
    if (s.categories.find? (fun c => c.name == nm)).any (fun ex => ex.id != cid) then
      Except.error 400
    else
      let cats2 := s.categories.map (fun c => if c.id = cid then { c with name := nm } else c)
      match item_ids with
      | none =>
        let s2 : Store := { s with categories := cats2 }
        Except.ok (categoryResponse s2 ⟨cid, nm⟩, s2)
      | some ids =>
        let found := s.items.filter (fun i => ids.contains i.id)
        if found.length ≠ ids.length then Except.error 404
        else
          let s2 : Store := { s with
            categories := cats2,
            assoc := s.assoc.filter (fun p => p.2 != cid) ++ found.map (fun i => (i.id, cid)) }
          Except.ok (categoryResponse s2 ⟨cid, nm⟩, s2)

/-- The filter predicate of GET /items (filter_items): when a non-empty
category-name list is given, the item must be joined to some category
whose name is in the list; the price must lie in
[min_price or 0, max_price or +inf]. -/
def matchesFilter (s : Store) (cs : Option (List String)) (minp maxp : Option ℚ) (i : Item) : Bool :=
  (match cs with
   | none => true
   | some names =>
     if names.isEmpty then true
     else s.categories.any (fun c => decide ((i.id, c.id) ∈ s.assoc) && names.contains c.name))
  && decide (minp.getD 0 ≤ i.price)
  && (match maxp with
      | none => true
      | some m => decide (i.price ≤ m))

/-- GET /items (filter_items): 404 when no item matches, otherwise the
matching items serialized.  `minp = none` models an omitted min_price
(default 0); `maxp = none` models an omitted max_price (default
float inf, which every price satisfies).  The route only reads. -/
def filter_items (s : Store) (cs : Option (List String)) (minp maxp : Option ℚ) :
    Except Nat (List ItemResponse) :=
  let found := s.items.filter (matchesFilter s cs minp maxp)
  if found.isEmpty then Except.error 404
  else Except.ok (found.map (itemResponse s))

/-- A raw create/update-item body before pydantic validation: each
field possibly absent. -/
structure RawItemBody where
  name : Option String
  description : Option (Option String)
  price : Option ℚ
deriving DecidableEq, Repr

/-- Pydantic validation of ItemBase: `name : str` and `price : float`
are required (missing field → 422); description is optional and
defaults to null.  A present string of any content, the empty string
included, passes `name : str`. -/
def validateItemBody (r : RawItemBody) : Except Nat ItemCreate :=
  match r.name, r.price with
  | some n, some p => Except.ok ⟨n, r.description.getD none, p⟩
  | _, _ => Except.error 422

/-- POST /items/ with validation in front. -/
def create_item_route (s : Store) (r : RawItemBody) : Except Nat (ItemResponse × Store) :=
  match validateItemBody r with
  | Except.error e => Except.error e
  | Except.ok b => create_item s b

/-- PUT /items/{item_id} with validation in front. -/
def update_item_route (s : Store) (iid : Nat) (r : RawItemBody) : Except Nat (ItemResponse × Store) :=
  match validateItemBody r with
  | Except.error e => Except.error e
  | Except.ok b => update_item s iid b

/-- One mutating request (the six state-changing routes). -/
inductive Req where
  | createItem (b : ItemCreate)
  | updateItem (iid : Nat) (b : ItemCreate)
  | deleteItem (iid : Nat)
  | createCategory (nm : String)
  | updateCategory (cid : Nat) (nm : String) (ids : Option (List Nat))
  | addItemToCategory (cid iid : Nat)
deriving DecidableEq, Repr

/-- The store after a route: the new store on success, the old store on
an error (the session is closed without commit, rolling back). -/
def resultState {α : Type} (s : Store) (e : Except Nat (α × Store)) : Store :=
  match e with
  | Except.ok (_, s2) => s2
  | Except.error _ => s

/-- The state transition of one request. -/
def step (s : Store) (r : Req) : Store :=
  match r with
  | Req.createItem b => resultState s (create_item s b)
  | Req.updateItem iid b => resultState s (update_item s iid b)
  | Req.deleteItem iid => resultState s (delete_item s iid)
  | Req.createCategory nm => resultState s (create_category s nm)
  | Req.updateCategory cid nm ids => resultState s (update_category s cid nm ids)
  | Req.addItemToCategory cid iid => resultState s (add_item_to_category s cid iid)

/-- The empty database right after schema creation. -/
def initStore : Store := ⟨[], [], [], 1, 1⟩

/-- The category-name uniqueness invariant. -/
def catNamesDistinct (s : Store) : Prop :=
  (s.categories.map Category.name).Nodup

/-- Well-formedness of a reachable store: primary keys are distinct and
below the counters, and category names are distinct. -/
def Wf (s : Store) : Prop :=
  (s.items.map Item.id).Nodup ∧
  (∀ i ∈ s.items, i.id < s.nextItemId) ∧
  (s.categories.map Category.id).Nodup ∧
  (∀ c ∈ s.categories, c.id < s.nextCategoryId) ∧
  catNamesDistinct s

instance (s : Store) : Decidable (catNamesDistinct s) := by
  unfold catNamesDistinct; infer_instance

instance (s : Store) : Decidable (Wf s) := by
  unfold Wf; infer_instance

/-- The price half of the filter predicate, as a proposition:
`min_price (default 0) ≤ price ≤ max_price (default +inf)`. -/
def priceOk (minp maxp : Option ℚ) (i : Item) : Prop :=
  minp.getD 0 ≤ i.price ∧ ∀ m ∈ maxp, i.price ≤ m

/-- The category half of the filter predicate, as a proposition: when a
non-empty name list is supplied, the item is associated with some
category whose name is in the list. -/
def catOk (s : Store) (cs : Option (List String)) (i : Item) : Prop :=
  ∀ names ∈ cs, names ≠ [] → ∃ c ∈ s.categories, (i.id, c.id) ∈ s.assoc ∧ c.name ∈ names

/-- A sample store: one item "Pen" in the one category "Office". -/
def wStore : Store := ⟨[⟨1, "Pen", none, 1⟩], [⟨1, "Office"⟩], [(1, 1)], 2, 2⟩

/-- A sample store: one item and one category, not associated. -/
def wStore0 : Store := ⟨[⟨1, "Pen", none, 1⟩], [⟨1, "Office"⟩], [], 2, 2⟩

/-- A sample store with two categories. -/
def wStore2 : Store :=
  ⟨[⟨1, "Pen", none, 1⟩], [⟨1, "Office"⟩, ⟨2, "Books"⟩], [(1, 1)], 2, 3⟩

/-! ### Helper lemmas -/

/-- `find?` with a key predicate returns the unique element carrying
that key when the keys of the list are distinct. -/
theorem find?_key_eq {α β : Type} [DecidableEq β] (f : α → β) (l : List α)
    (h : (l.map f).Nodup) {x : α} (hx : x ∈ l) :
    l.find? (fun y => f y == f x) = some x := by
  induction l with
  | nil => cases hx
  | cons a t ih =>
    by_cases ha : f a = f x
    · have : a = x := List.inj_on_of_nodup_map h (List.mem_cons_self a t) hx ha
      subst this
      simp [List.find?_cons, ha]
    · have hxt : x ∈ t := by
        rcases List.mem_cons.mp hx with rfl | hxt
        · exact absurd rfl ha
        · exact hxt
      have ht : (t.map f).Nodup := (List.nodup_cons.mp h).2
      have hb : (f a == f x) = false := by simpa using ha
      simp only [List.find?_cons, hb]
      exact ih ht hxt

/-- Two categories of a name-distinct list with the same name are the
same category. -/
theorem cat_eq_of_name_eq {l : List Category} (h : (l.map Category.name).Nodup)
    {x y : Category} (hx : x ∈ l) (hy : y ∈ l) (hn : x.name = y.name) : x = y :=
  List.inj_on_of_nodup_map h hx hy hn

/-- The Boolean filter predicate agrees with its propositional
reading. -/
theorem matchesFilter_iff (s : Store) (cs : Option (List String)) (minp maxp : Option ℚ)
    (i : Item) :
    matchesFilter s cs minp maxp i = true ↔ priceOk minp maxp i ∧ catOk s cs i := by
  unfold matchesFilter priceOk catOk
  cases cs with
  | none =>
    cases maxp <;> simp
  | some names =>
    cases maxp <;>
      cases names <;>
        simp [List.any_eq_true, and_comm, and_assoc, And.comm]

/-! ### Claims -/

/-- C7: for every store containing a category with a given name, a
create-category request with that same name returns 400 and the
category table is unchanged. -/
theorem C7_create_category_duplicate_400 (s : Store) (nm : String)
    (h : ∃ c ∈ s.categories, c.name = nm) :
    create_category s nm = Except.error 400 ∧
    (resultState s (create_category s nm)).categories = s.categories := by
  obtain ⟨c, hc, hn⟩ := h
  have hfind : (s.categories.find? (fun c => c.name == nm)).isSome := by
    rw [List.find?_isSome]
    exact ⟨c, hc, by simp [hn]⟩
  obtain ⟨ex, hex⟩ := Option.isSome_iff_exists.mp hfind
  refine ⟨?_, ?_⟩ <;> simp [create_category, hex, resultState]

/-- Witness for C7 on a concrete store. -/
theorem C7_witness :
    create_category wStore "Office" = Except.error 400 ∧
    (resultState wStore (create_category wStore "Office")).categories = wStore.categories :=
  C7_create_category_duplicate_400 wStore "Office" (by decide)

/-- C8: an update-item request whose id matches no item yields 404 and
leaves the store unchanged. -/
theorem C8_update_item_not_found_404 (s : Store) (iid : Nat) (b : ItemCreate)
    (h : ∀ i ∈ s.items, i.id ≠ iid) :
    update_item s iid b = Except.error 404 ∧
    resultState s (update_item s iid b) = s := by
  have hfind : s.items.find? (fun i => i.id == iid) = none := by
    rw [List.find?_eq_none]
    intro i hi
    simpa using h i hi
  refine ⟨?_, ?_⟩ <;> simp [update_item, hfind, resultState]

/-- Witness for C8 on a concrete store. -/
theorem C8_witness :
    update_item wStore 2 ⟨"X", none, 0⟩ = Except.error 404 ∧
    resultState wStore (update_item wStore 2 ⟨"X", none, 0⟩) = wStore :=
  C8_update_item_not_found_404 wStore 2 ⟨"X", none, 0⟩ (by decide)

/-- C9 counterexample: the empty string passes `name : str` validation.
Creating an item with `name = ""` does not yield 422; it inserts an
item whose name is empty. -/
theorem C9_counterexample :
    create_item_route initStore ⟨some "", none, some 5⟩ =
      Except.ok (⟨1, "", none, 5, []⟩, ⟨[⟨1, "", none, 5⟩], [], [], 2, 1⟩) ∧
    create_item_route initStore ⟨some "", none, some 5⟩ ≠ Except.error 422 := by
  refine ⟨rfl, ?_⟩
  intro hcontra
  rw [show create_item_route initStore ⟨some "", none, some 5⟩ =
        Except.ok (⟨1, "", none, 5, []⟩, ⟨[⟨1, "", none, 5⟩], [], [], 2, 1⟩) from rfl] at hcontra
  exact Except.noConfusion hcontra

/-- C9 (amended): the name field is required, so a request missing it
fails validation with 422 before touching persistence and no item is
created or modified; a present empty string, however, is accepted. -/
theorem C9_missing_name_422 (s : Store) (iid : Nat) (r : RawItemBody)
    (h : r.name = none) :
    create_item_route s r = Except.error 422 ∧
    update_item_route s iid r = Except.error 422 ∧
    resultState s (create_item_route s r) = s ∧
    resultState s (update_item_route s iid r) = s := by
  obtain ⟨n, d, p⟩ := r
  simp only at h
  subst h
  have hv : validateItemBody ⟨none, d, p⟩ = Except.error 422 := by
    cases p <;> rfl
  refine ⟨?_, ?_, ?_, ?_⟩ <;>
    simp [create_item_route, update_item_route, hv, resultState]

/-- Witness for C9 (amended) on a concrete store. -/
theorem C9_witness :
    create_item_route wStore ⟨none, none, some 5⟩ = Except.error 422 ∧
    update_item_route wStore 1 ⟨none, none, some 5⟩ = Except.error 422 ∧
    resultState wStore (create_item_route wStore ⟨none, none, some 5⟩) = wStore ∧
    resultState wStore (update_item_route wStore 1 ⟨none, none, some 5⟩) = wStore :=
  C9_missing_name_422 wStore 1 ⟨none, none, some 5⟩ rfl

/-- C10: a successful update-item touches only the three mutable fields
of the targeted row: ids are preserved, every other item row is
unchanged, and the categories, associations and counters are
unchanged. -/
theorem C10_update_item_frame (s : Store) (iid : Nat) (b : ItemCreate)
    (resp : ItemResponse) (s2 : Store)
    (h : update_item s iid b = Except.ok (resp, s2)) :
    s2.categories = s.categories ∧ s2.assoc = s.assoc ∧
    s2.nextItemId = s.nextItemId ∧ s2.nextCategoryId = s.nextCategoryId ∧
    s2.items.map Item.id = s.items.map Item.id ∧
    s2.items = s.items.map (fun i =>
      if i.id = iid then
        { i with name := b.name, description := b.description, price := b.price }
      else i) := by
  unfold update_item at h
  cases hfind : s.items.find? (fun i => i.id == iid) with
  | none =>
    rw [hfind] at h
    exact absurd h (by simp)
  | some it =>
    rw [hfind] at h
    simp only [Except.ok.injEq, Prod.mk.injEq] at h
    obtain ⟨-, h2⟩ := h
    subst h2
    refine ⟨rfl, rfl, rfl, rfl, ?_, rfl⟩
    rw [List.map_map]
    refine List.map_congr_left ?_
    intro i _
    by_cases hid : i.id = iid <;> simp [hid]

/-- Witness for C10 on a concrete store. -/
theorem C10_witness :
    (⟨[⟨1, "New", some "d", 2⟩], [⟨1, "Office"⟩], [(1, 1)], 2, 2⟩ : Store).categories
        = wStore.categories ∧
    (⟨[⟨1, "New", some "d", 2⟩], [⟨1, "Office"⟩], [(1, 1)], 2, 2⟩ : Store).assoc
        = wStore.assoc ∧
    (⟨[⟨1, "New", some "d", 2⟩], [⟨1, "Office"⟩], [(1, 1)], 2, 2⟩ : Store).nextItemId
        = wStore.nextItemId ∧
    (⟨[⟨1, "New", some "d", 2⟩], [⟨1, "Office"⟩], [(1, 1)], 2, 2⟩ : Store).nextCategoryId
        = wStore.nextCategoryId ∧
    (⟨[⟨1, "New", some "d", 2⟩], [⟨1, "Office"⟩], [(1, 1)], 2, 2⟩ : Store).items.map Item.id
        = wStore.items.map Item.id ∧
    (⟨[⟨1, "New", some "d", 2⟩], [⟨1, "Office"⟩], [(1, 1)], 2, 2⟩ : Store).items
        = wStore.items.map (fun i =>
          if i.id = 1 then { i with name := "New", description := some "d", price := 2 }
          else i) :=
  C10_update_item_frame wStore 1 ⟨"New", some "d", 2⟩
    ⟨1, "New", some "d", 2, ["Office"]⟩
    ⟨[⟨1, "New", some "d", 2⟩], [⟨1, "Office"⟩], [(1, 1)], 2, 2⟩ rfl

/-- C5: when no stored item satisfies the filter conditions, the
filter-items route answers 404 rather than an empty 200 list (the
route only reads the store). -/
theorem C5_filter_empty_404 (s : Store) (cs : Option (List String)) (minp maxp : Option ℚ)
    (h : ∀ i ∈ s.items, ¬(priceOk minp maxp i ∧ catOk s cs i)) :
    filter_items s cs minp maxp = Except.error 404 := by
  have hnil : s.items.filter (matchesFilter s cs minp maxp) = [] := by
    rw [List.filter_eq_nil_iff]
    intro i hi
    exact fun hb => h i hi ((matchesFilter_iff s cs minp maxp i).mp hb)
  simp [filter_items, hnil]

/-- Witness for C5 on the empty store. -/
theorem C5_witness : filter_items initStore none none none = Except.error 404 :=
  C5_filter_empty_404 initStore none none none (by simp [initStore])

/-- C4: a 200 answer of filter-items contains exactly the serialized
stored items whose price lies in [min_price or 0, max_price or +inf]
and which, when a non-empty category-name list was supplied, belong to
some category named in it. -/
theorem C4_filter_sound_complete (s : Store) (cs : Option (List String))
    (minp maxp : Option ℚ) (l : List ItemResponse)
    (h : filter_items s cs minp maxp = Except.ok l) :
    (∀ r ∈ l, ∃ i ∈ s.items, r = itemResponse s i ∧ priceOk minp maxp i ∧ catOk s cs i) ∧
    (∀ i ∈ s.items, priceOk minp maxp i → catOk s cs i → itemResponse s i ∈ l) := by
  unfold filter_items at h
  by_cases he : (s.items.filter (matchesFilter s cs minp maxp)).isEmpty
  · rw [if_pos he] at h
    exact absurd h (by simp)
  · rw [if_neg he] at h
    injection h with h
    subst h
    constructor
    · intro r hr
      obtain ⟨i, hi, rfl⟩ := List.mem_map.mp hr
      have hm := List.mem_filter.mp hi
      exact ⟨i, hm.1, rfl, (matchesFilter_iff s cs minp maxp i).mp hm.2⟩
    · intro i hi hp hc
      exact List.mem_map_of_mem _
        (List.mem_filter.mpr ⟨hi, (matchesFilter_iff s cs minp maxp i).mpr ⟨hp, hc⟩⟩)

/-- Witness for C4 on a concrete store and query. -/
theorem C4_witness :
    itemResponse wStore ⟨1, "Pen", none, 1⟩ ∈ [itemResponse wStore ⟨1, "Pen", none, 1⟩] :=
  (C4_filter_sound_complete wStore (some ["Office"]) (some 1) (some 1)
      [itemResponse wStore ⟨1, "Pen", none, 1⟩] rfl).2
    ⟨1, "Pen", none, 1⟩ (by decide)
    (by constructor <;> simp [wStore])
    (by intro names hn hne; simp at hn; subst hn; exact ⟨⟨1, "Office"⟩, by simp [wStore]⟩)

/-- C2: add-item-to-category is idempotent: on an existing pair the
first call already yields the post-commit store, and a second call
returns 200 with the item's current category-name list and the same
store, so twice equals once. -/
theorem C2_add_item_idempotent (s : Store) (c : Category) (it : Item)
    (hwf : Wf s) (hc : c ∈ s.categories) (hi : it ∈ s.items) :
    add_item_to_category s c.id it.id =
      Except.ok (itemResponse (step s (Req.addItemToCategory c.id it.id)) it,
        step s (Req.addItemToCategory c.id it.id)) ∧
    add_item_to_category (step s (Req.addItemToCategory c.id it.id)) c.id it.id =
      Except.ok (itemResponse (step s (Req.addItemToCategory c.id it.id)) it,
        step s (Req.addItemToCategory c.id it.id)) ∧
    step (step s (Req.addItemToCategory c.id it.id)) (Req.addItemToCategory c.id it.id) =
      step s (Req.addItemToCategory c.id it.id) := by
  have hfc := find?_key_eq Category.id s.categories hwf.2.2.1 hc
  have hfi := find?_key_eq Item.id s.items hwf.1 hi
  by_cases hmem : (it.id, c.id) ∈ s.assoc
  · have h1 : add_item_to_category s c.id it.id = Except.ok (itemResponse s it, s) := by
      simp [add_item_to_category, hfc, hfi, hmem]
    have hstep : step s (Req.addItemToCategory c.id it.id) = s := by
      simp [step, resultState, h1]
    rw [hstep]
    exact ⟨h1, h1, by simp [step, resultState, h1]⟩
  · have h1 : add_item_to_category s c.id it.id =
        Except.ok (itemResponse { s with assoc := s.assoc ++ [(it.id, c.id)] } it,
          { s with assoc := s.assoc ++ [(it.id, c.id)] }) := by
      simp [add_item_to_category, hfc, hfi, hmem]
    have hstep : step s (Req.addItemToCategory c.id it.id) =
        { s with assoc := s.assoc ++ [(it.id, c.id)] } := by
      simp [step, resultState, h1]
    have hmem2 : (it.id, c.id) ∈ ({ s with assoc := s.assoc ++ [(it.id, c.id)] } : Store).assoc := by
      simp
    have h2 : add_item_to_category { s with assoc := s.assoc ++ [(it.id, c.id)] } c.id it.id =
        Except.ok (itemResponse { s with assoc := s.assoc ++ [(it.id, c.id)] } it,
          { s with assoc := s.assoc ++ [(it.id, c.id)] }) := by
      simp [add_item_to_category, hfc, hfi, hmem2]
    rw [hstep]
    exact ⟨h1, h2, by simp [step, resultState, h2]⟩

/-- Witness for C2 on a concrete store without the association. -/
theorem C2_witness :
    add_item_to_category wStore0 1 1 =
      Except.ok (itemResponse (step wStore0 (Req.addItemToCategory 1 1)) ⟨1, "Pen", none, 1⟩,
        step wStore0 (Req.addItemToCategory 1 1)) ∧
    add_item_to_category (step wStore0 (Req.addItemToCategory 1 1)) 1 1 =
      Except.ok (itemResponse (step wStore0 (Req.addItemToCategory 1 1)) ⟨1, "Pen", none, 1⟩,
        step wStore0 (Req.addItemToCategory 1 1)) ∧
    step (step wStore0 (Req.addItemToCategory 1 1)) (Req.addItemToCategory 1 1) =
      step wStore0 (Req.addItemToCategory 1 1) :=
  C2_add_item_idempotent wStore0 ⟨1, "Office"⟩ ⟨1, "Pen", none, 1⟩
    (by decide) (by decide) (by decide)

/-- C6: the update-category duplicate-name check excludes the target
itself: renaming a category to its own current name succeeds and even
leaves the store unchanged, while renaming to the current name of a
different category fails with 400, whatever item_ids are supplied. -/
theorem C6_rename_self_vs_other (s : Store) (c : Category)
    (hwf : Wf s) (hc : c ∈ s.categories) :
    ((update_category s c.id c.name none).isOk = true ∧
      resultState s (update_category s c.id c.name none) = s) ∧
    (∀ d ∈ s.categories, d.id ≠ c.id → ∀ ids,
      update_category s c.id d.name ids = Except.error 400) := by
  have hnames : (s.categories.map Category.name).Nodup := hwf.2.2.2.2
  have hcids : (s.categories.map Category.id).Nodup := hwf.2.2.1
  have hfid := find?_key_eq Category.id s.categories hcids hc
  constructor
  · have hfnm := find?_key_eq Category.name s.categories hnames hc
    have hcats : s.categories.map
        (fun d => if d.id = c.id then { d with name := c.name } else d) = s.categories := by
      have hpt : ∀ d ∈ s.categories,
          (if d.id = c.id then { d with name := c.name } else d) = d := by
        intro d hd
        by_cases hdc : d.id = c.id
        · have hdceq : d = c := List.inj_on_of_nodup_map hcids hd hc hdc
          subst hdceq
          simp
        · simp [hdc]
      calc s.categories.map (fun d => if d.id = c.id then { d with name := c.name } else d)
          = s.categories.map (fun d => d) := List.map_congr_left hpt
        _ = s.categories := List.map_id' s.categories
    have h1 : update_category s c.id c.name none =
        Except.ok (categoryResponse s ⟨c.id, c.name⟩, s) := by
      simp [update_category, hfid, hfnm, hcats]
    simp [h1, resultState, Except.isOk, Except.toBool]
  · intro d hd hne ids
    have hfnd := find?_key_eq Category.name s.categories hnames hd
    have hguard : (s.categories.find? (fun y => y.name == d.name)).any
        (fun ex => ex.id != c.id) = true := by
      rw [hfnd]
      simpa using hne
    simp [update_category, hfid, hguard]

/-- Witness for C6 on a concrete two-category store. -/
theorem C6_witness :
    ((update_category wStore2 1 "Office" none).isOk = true ∧
      resultState wStore2 (update_category wStore2 1 "Office" none) = wStore2) ∧
    update_category wStore2 1 "Books" none = Except.error 400 :=
  ⟨(C6_rename_self_vs_other wStore2 ⟨1, "Office"⟩ (by decide) (by decide)).1,
   (C6_rename_self_vs_other wStore2 ⟨1, "Office"⟩ (by decide) (by decide)).2
     ⟨2, "Books"⟩ (by decide) (by decide) none⟩

/-- C1 counterexample: the row-count check `len(items) != len(item_ids)`
rejects duplicated ids even though each of them resolves: on a store
whose only item has id 1, updating with item_ids = [1, 1] yields 404
instead of the 200 the claim demands; and the duplicate-name check runs
first, so an unresolvable id together with a taken name yields 400, not
404. -/
theorem C1_counterexample :
    wStore.items.map Item.id = [1] ∧
    update_category wStore 1 "Office" (some [1, 1]) = Except.error 404 ∧
    update_category wStore2 1 "Books" (some [99]) = Except.error 400 := by
  refine ⟨rfl, rfl, rfl⟩

/-- C1 (amended): for an update-category request on an existing
category whose new name passes the duplicate-name check: if some
supplied id resolves to no item the request fails with 404 and the
store is unchanged, and if the supplied ids are pairwise distinct and
all resolve the request succeeds and the category's membership is
replaced by exactly the items with those ids. -/
theorem C1_update_category_strict (s : Store) (cid : Nat) (nm : String) (ids : List Nat)
    (hwf : Wf s)
    (hcat : ∃ c ∈ s.categories, c.id = cid)
    (hname : ∀ c ∈ s.categories, c.name = nm → c.id = cid) :
    ((∃ a ∈ ids, ∀ i ∈ s.items, i.id ≠ a) →
      update_category s cid nm (some ids) = Except.error 404 ∧
      resultState s (update_category s cid nm (some ids)) = s) ∧
    (ids.Nodup → (∀ a ∈ ids, ∃ i ∈ s.items, i.id = a) →
      (update_category s cid nm (some ids)).isOk = true ∧
      ∀ a : Nat,
        ((a, cid) ∈ (resultState s (update_category s cid nm (some ids))).assoc ↔ a ∈ ids)) := by
  obtain ⟨cw, hcw, hcwid⟩ := hcat
  have hfidS : (s.categories.find? (fun c => c.id == cid)).isSome := by
    rw [List.find?_isSome]
    exact ⟨cw, hcw, by simp [hcwid]⟩
  obtain ⟨c0, hfc⟩ := Option.isSome_iff_exists.mp hfidS
  have hguard : (s.categories.find? (fun c => c.name == nm)).any (fun ex => ex.id != cid)
      = false := by
    cases hg : s.categories.find? (fun c => c.name == nm) with
    | none => rfl
    | some ex =>
      have hexm := List.mem_of_find?_eq_some hg
      have hexn : ex.name = nm := by simpa using List.find?_some hg
      have hexid : ex.id = cid := hname ex hexm hexn
      simp [Option.any, hexid]
  have hmemf : ∀ a : Nat,
      a ∈ (s.items.filter (fun i => ids.contains i.id)).map Item.id ↔
        (a ∈ ids ∧ ∃ i ∈ s.items, i.id = a) := by
    intro a
    simp only [List.mem_map, List.mem_filter]
    constructor
    · rintro ⟨i, ⟨hi, hcont⟩, rfl⟩
      exact ⟨by simpa using hcont, i, hi, rfl⟩
    · rintro ⟨ha, i, hi, rfl⟩
      exact ⟨i, ⟨hi, by simpa using ha⟩, rfl⟩
  have hnd : ((s.items.filter (fun i => ids.contains i.id)).map Item.id).Nodup :=
    ((List.filter_sublist s.items).map Item.id).nodup hwf.1
  have hcount : (s.items.filter (fun i => ids.contains i.id)).length =
      ((s.items.filter (fun i => ids.contains i.id)).map Item.id).toFinset.card := by
    rw [List.toFinset_card_of_nodup hnd, List.length_map]
  constructor
  · rintro ⟨a, ha, hnone⟩
    have hsubF : ((s.items.filter (fun i => ids.contains i.id)).map Item.id).toFinset ⊆
        ids.toFinset.erase a := by
      intro x hx
      rw [List.mem_toFinset] at hx
      have hx2 := (hmemf x).mp hx
      rw [Finset.mem_erase, List.mem_toFinset]
      refine ⟨?_, hx2.1⟩
      rintro rfl
      obtain ⟨i, hi, hie⟩ := hx2.2
      exact hnone i hi hie
    have h3 := Finset.card_le_card hsubF
    rw [Finset.card_erase_of_mem (List.mem_toFinset.mpr ha)] at h3
    have h4 : ids.toFinset.card ≤ ids.length := List.toFinset_card_le ids
    have h5 : 0 < ids.toFinset.card := Finset.card_pos.mpr ⟨a, List.mem_toFinset.mpr ha⟩
    have hlen : (s.items.filter (fun i => ids.contains i.id)).length ≠ ids.length := by
      omega
    have h404 : update_category s cid nm (some ids) = Except.error 404 := by
      have hlen2 : ¬(s.items.filter (fun i => decide (i.id ∈ ids))).length = ids.length := by
        simpa using hlen
      simp [update_category, hfc, hguard, hlen2]
    exact ⟨h404, by simp [h404, resultState]⟩
  · intro hnodup hres
    have hset : ((s.items.filter (fun i => ids.contains i.id)).map Item.id).toFinset =
        ids.toFinset := by
      ext x
      rw [List.mem_toFinset, List.mem_toFinset, hmemf x]
      exact ⟨fun h => h.1, fun hx => ⟨hx, hres x hx⟩⟩
    have hlen : (s.items.filter (fun i => ids.contains i.id)).length = ids.length := by
      rw [hcount, hset, List.toFinset_card_of_nodup hnodup]
    have hok : update_category s cid nm (some ids) =
        Except.ok
          (categoryResponse
            { s with
              categories := s.categories.map
                (fun c => if c.id = cid then { c with name := nm } else c),
              assoc := s.assoc.filter (fun p => p.2 != cid) ++
                (s.items.filter (fun i => ids.contains i.id)).map (fun i => (i.id, cid)) }
            ⟨cid, nm⟩,
          { s with
            categories := s.categories.map
              (fun c => if c.id = cid then { c with name := nm } else c),
            assoc := s.assoc.filter (fun p => p.2 != cid) ++
              (s.items.filter (fun i => ids.contains i.id)).map (fun i => (i.id, cid)) }) := by
      have hlen2 : (s.items.filter (fun i => decide (i.id ∈ ids))).length = ids.length := by
        simpa using hlen
      simp [update_category, hfc, hguard, hlen2]
    refine ⟨by simp [hok, Except.isOk, Except.toBool], ?_⟩
    intro a
    rw [hok]
    simp only [resultState, List.mem_append]
    constructor
    · rintro (hl | hr)
      · have := (List.mem_filter.mp hl).2
        simp at this
      · obtain ⟨i, hif, hpair⟩ := List.mem_map.mp hr
        have hia : i.id = a := by
          have := congrArg Prod.fst hpair
          simpa using this
        have : a ∈ (s.items.filter (fun i => ids.contains i.id)).map Item.id :=
          hia ▸ List.mem_map_of_mem Item.id hif
        exact ((hmemf a).mp this).1
    · intro ha
      right
      have : a ∈ (s.items.filter (fun i => ids.contains i.id)).map Item.id :=
        (hmemf a).mpr ⟨ha, hres a ha⟩
      obtain ⟨i, hif, hia⟩ := List.mem_map.mp this
      refine List.mem_map.mpr ⟨i, hif, ?_⟩
      rw [hia]

/-- Witness for C1 (amended) on a concrete store: an unresolvable id
yields 404, and a resolving distinct list replaces the membership. -/
theorem C1_witness :
    (update_category wStore 1 "Office" (some [2]) = Except.error 404 ∧
      resultState wStore (update_category wStore 1 "Office" (some [2])) = wStore) ∧
    ((1, 1) ∈ (resultState wStore (update_category wStore 1 "Office" (some [1]))).assoc ↔
      1 ∈ [1]) :=
  ⟨(C1_update_category_strict wStore 1 "Office" [2] (by decide) (by decide)
      (by decide)).1 ⟨2, by decide, by decide⟩,
   ((C1_update_category_strict wStore 1 "Office" [1] (by decide) (by decide)
      (by decide)).2 (by decide) (by decide)).2 1⟩

/-- A map over the items that preserves ids preserves well-formedness
of the store. -/
theorem wf_items_map (s : Store) (f : Item → Item) (hf : ∀ i, (f i).id = i.id)
    (h : Wf s) : Wf { s with items := s.items.map f } := by
  obtain ⟨h1, h2, h3, h4, h5⟩ := h
  refine ⟨?_, ?_, h3, h4, h5⟩
  · rw [List.map_map, show Item.id ∘ f = Item.id from funext hf]
    exact h1
  · intro i2 hi2
    obtain ⟨i, hi, rfl⟩ := List.mem_map.mp hi2
    rw [hf]
    exact h2 i hi

/-- Renaming the category with id `cid` to `nm` keeps the category
names distinct, provided only a category with that id may already
carry the name. -/
theorem nodup_rename_names (l : List Category) (cid : Nat) (nm : String)
    (hid : (l.map Category.id).Nodup) (hnm : (l.map Category.name).Nodup)
    (hk : ∀ c ∈ l, c.name = nm → c.id = cid) :
    ((l.map (fun c => if c.id = cid then { c with name := nm } else c)).map
      Category.name).Nodup := by
  induction l with
  | nil => simp
  | cons a t ih =>
    simp only [List.map_cons, List.nodup_cons] at hid hnm ⊢
    obtain ⟨hida, hidt⟩ := hid
    obtain ⟨hnma, hnmt⟩ := hnm
    refine ⟨?_, ih hidt hnmt (fun c hc => hk c (List.mem_cons_of_mem a hc))⟩
    intro hmem
    rw [List.map_map] at hmem
    obtain ⟨d, hd, hdeq⟩ := List.mem_map.mp hmem
    by_cases hac : a.id = cid
    · by_cases hdc : d.id = cid
      · exact hida (by rw [← hac] at hdc; exact hdc ▸ List.mem_map_of_mem Category.id hd)
      · have hfd : (Category.name ∘ fun c =>
            if c.id = cid then { c with name := nm } else c) d = d.name := by
          simp [hdc]
        have hfa : ((fun c => if c.id = cid then { c with name := nm } else c) a).name
            = nm := by simp [hac]
        rw [hfd] at hdeq
        rw [hfa] at hdeq
        exact hdc (hk d (List.mem_cons_of_mem a hd) hdeq)
    · have hfa : ((fun c => if c.id = cid then { c with name := nm } else c) a).name
          = a.name := by simp [hac]
      have hanm : a.name ≠ nm := fun hh => hac (hk a (List.mem_cons_self a t) hh)
      by_cases hdc : d.id = cid
      · have hfd : (Category.name ∘ fun c =>
            if c.id = cid then { c with name := nm } else c) d = nm := by
          simp [hdc]
        rw [hfd, hfa] at hdeq
        exact hanm hdeq.symm
      · have hfd : (Category.name ∘ fun c =>
            if c.id = cid then { c with name := nm } else c) d = d.name := by
          simp [hdc]
        rw [hfd, hfa] at hdeq
        exact hnma (hdeq ▸ List.mem_map_of_mem Category.name hd)

/-- Appending a fresh item row preserves well-formedness. -/
theorem wf_create_item_case (s : Store) (b : ItemCreate) (h : Wf s) :
    Wf (resultState s (create_item s b)) := by
  obtain ⟨h1, h2, h3, h4, h5⟩ := h
  simp only [create_item, resultState]
  refine ⟨?_, ?_, h3, h4, h5⟩
  · rw [List.map_append, List.nodup_append]
    refine ⟨h1, by simp, ?_⟩
    intro a haA haB
    obtain ⟨i, hi, rfl⟩ := List.mem_map.mp haA
    simp only [List.map_cons, List.map_nil, List.mem_singleton] at haB
    exact absurd haB (Nat.ne_of_lt (h2 i hi))
  · intro i hi
    rcases List.mem_append.mp hi with hi | hi
    · exact Nat.lt_succ_of_lt (h2 i hi)
    · rw [List.mem_singleton] at hi
      subst hi
      exact Nat.lt_succ_self _

/-- The update-item route preserves well-formedness. -/
theorem wf_update_item_case (s : Store) (iid : Nat) (b : ItemCreate) (h : Wf s) :
    Wf (resultState s (update_item s iid b)) := by
  cases hf : s.items.find? (fun i => i.id == iid) with
  | none => simpa [update_item, hf, resultState] using h
  | some it =>
    have := wf_items_map s
      (fun i => if i.id = iid then
        { i with name := b.name, description := b.description, price := b.price } else i)
      (by intro i; by_cases hid : i.id = iid <;> simp [hid]) h
    simpa [update_item, hf, resultState] using this

/-- The delete-item route preserves well-formedness. -/
theorem wf_delete_item_case (s : Store) (iid : Nat) (h : Wf s) :
    Wf (resultState s (delete_item s iid)) := by
  cases hf : s.items.find? (fun i => i.id == iid) with
  | none => simpa [delete_item, hf, resultState] using h
  | some it =>
    obtain ⟨h1, h2, h3, h4, h5⟩ := h
    simp only [delete_item, hf, resultState]
    refine ⟨?_, ?_, h3, h4, h5⟩
    · exact ((List.filter_sublist s.items).map Item.id).nodup h1
    · intro i hi
      exact h2 i (List.mem_filter.mp hi).1

/-- The create-category route preserves well-formedness. -/
theorem wf_create_category_case (s : Store) (nm : String) (h : Wf s) :
    Wf (resultState s (create_category s nm)) := by
  cases hf : s.categories.find? (fun c => c.name == nm) with
  | some ex => simpa [create_category, hf, resultState] using h
  | none =>
    have hnone : ∀ c ∈ s.categories, c.name ≠ nm := by
      intro c hc
      have := List.find?_eq_none.mp hf c hc
      simpa using this
    obtain ⟨h1, h2, h3, h4, h5⟩ := h
    simp only [create_category, hf, resultState]
    refine ⟨h1, h2, ?_, ?_, ?_⟩
    · rw [List.map_append, List.nodup_append]
      refine ⟨h3, by simp, ?_⟩
      intro a haA haB
      obtain ⟨c, hc, rfl⟩ := List.mem_map.mp haA
      simp only [List.map_cons, List.map_nil, List.mem_singleton] at haB
      exact absurd haB (Nat.ne_of_lt (h4 c hc))
    · intro c hc
      rcases List.mem_append.mp hc with hc | hc
      · exact Nat.lt_succ_of_lt (h4 c hc)
      · rw [List.mem_singleton] at hc
        subst hc
        exact Nat.lt_succ_self _
    · unfold catNamesDistinct at h5 ⊢
      simp only [List.map_append, List.nodup_append]
      refine ⟨h5, by simp, ?_⟩
      intro a haA haB
      obtain ⟨c, hc, rfl⟩ := List.mem_map.mp haA
      simp only [List.map_cons, List.map_nil, List.mem_singleton] at haB
      exact hnone c hc haB

/-- The add-item-to-category route preserves well-formedness (it can
only touch the association table, which the invariant does not
mention). -/
theorem wf_add_item_case (s : Store) (cid iid : Nat) (h : Wf s) :
    Wf (resultState s (add_item_to_category s cid iid)) := by
  cases hfc : s.categories.find? (fun c => c.id == cid) with
  | none => simpa [add_item_to_category, hfc, resultState] using h
  | some c =>
    cases hfi : s.items.find? (fun i => i.id == iid) with
    | none => simpa [add_item_to_category, hfc, hfi, resultState] using h
    | some it =>
      by_cases hmem : (iid, cid) ∈ s.assoc
      · simpa [add_item_to_category, hfc, hfi, hmem, resultState] using h
      · have hgoal : Wf { s with assoc := s.assoc ++ [(iid, cid)] } := h
        simpa [add_item_to_category, hfc, hfi, hmem, resultState] using hgoal

/-- The update-category route preserves well-formedness. -/
theorem wf_update_category_case (s : Store) (cid : Nat) (nm : String)
    (ids : Option (List Nat)) (h : Wf s) :
    Wf (resultState s (update_category s cid nm ids)) := by
  cases hfc : s.categories.find? (fun c => c.id == cid) with
  | none => simpa [update_category, hfc, resultState] using h
  | some c0 =>
    cases hguard : (s.categories.find? (fun c => c.name == nm)).any
        (fun ex => ex.id != cid) with
    | true => simpa [update_category, hfc, hguard, resultState] using h
    | false =>
      obtain ⟨h1, h2, h3, h4, h5⟩ := h
      have hk : ∀ c ∈ s.categories, c.name = nm → c.id = cid := by
        intro c hc hcn
        cases hg : s.categories.find? (fun c => c.name == nm) with
        | none =>
          have := List.find?_eq_none.mp hg c hc
          simp [hcn] at this
        | some ex =>
          rw [hg] at hguard
          have hexid : ex.id = cid := by simpa using hguard
          have hexn : ex.name = nm := by simpa using List.find?_some hg
          have : c = ex := cat_eq_of_name_eq h5 hc (List.mem_of_find?_eq_some hg)
            (by rw [hcn, hexn])
          rw [this, hexid]
      have hids2 : ((s.categories.map
          (fun c => if c.id = cid then { c with name := nm } else c)).map
            Category.id) = s.categories.map Category.id := by
        rw [List.map_map]
        refine List.map_congr_left ?_
        intro c _
        by_cases hc : c.id = cid <;> simp [hc]
      have hbound2 : ∀ c2 ∈ s.categories.map
          (fun c => if c.id = cid then { c with name := nm } else c),
          c2.id < s.nextCategoryId := by
        intro c2 hc2
        obtain ⟨c, hc, rfl⟩ := List.mem_map.mp hc2
        by_cases hcc : c.id = cid
        · rw [if_pos hcc]
          exact hcc ▸ h4 c hc
        · rw [if_neg hcc]
          exact h4 c hc
      have hwf2 : Wf { s with
          categories := s.categories.map
            (fun c => if c.id = cid then { c with name := nm } else c) } := by
        refine ⟨h1, h2, ?_, hbound2, ?_⟩
        · rw [hids2]; exact h3
        · exact nodup_rename_names s.categories cid nm h3 h5 hk
      cases ids with
      | none =>
        simpa [update_category, hfc, hguard, resultState] using hwf2
      | some l =>
        cases hlen : decide
            ((s.items.filter (fun i => l.contains i.id)).length ≠ l.length) with
        | true =>
          have hlenP : (s.items.filter (fun i => l.contains i.id)).length ≠ l.length :=
            of_decide_eq_true hlen
          have hlen2 : ¬(s.items.filter (fun i => decide (i.id ∈ l))).length = l.length := by
            simpa using hlenP
          simpa [update_category, hfc, hguard, hlen2, resultState]
            using (⟨h1, h2, h3, h4, h5⟩ : Wf s)
        | false =>
          have hlenP : (s.items.filter (fun i => l.contains i.id)).length = l.length := by
            have := of_decide_eq_false hlen
            omega
          have hlen2 : (s.items.filter (fun i => decide (i.id ∈ l))).length = l.length := by
            simpa using hlenP
          have hwf3 : Wf { s with
              categories := s.categories.map
                (fun c => if c.id = cid then { c with name := nm } else c),
              assoc := s.assoc.filter (fun p => p.2 != cid) ++
                (s.items.filter (fun i => l.contains i.id)).map (fun i => (i.id, cid)) } :=
            hwf2
          simpa [update_category, hfc, hguard, hlen2, resultState] using hwf3

/-- C3: category names stay pairwise distinct: every mutating route
(create/update/delete item, create/update category, add item to
category) maps a well-formed store to a well-formed store, whose
category names in particular are pairwise distinct. -/
theorem C3_category_names_unique (s : Store) (r : Req) (h : Wf s) :
    Wf (step s r) ∧ catNamesDistinct (step s r) := by
  have hwf2 : Wf (step s r) := by
    cases r with
    | createItem b => exact wf_create_item_case s b h
    | updateItem iid b => exact wf_update_item_case s iid b h
    | deleteItem iid => exact wf_delete_item_case s iid h
    | createCategory nm => exact wf_create_category_case s nm h
    | updateCategory cid nm ids => exact wf_update_category_case s cid nm ids h
    | addItemToCategory cid iid => exact wf_add_item_case s cid iid h
  exact ⟨hwf2, hwf2.2.2.2.2⟩

/-- Witness for C3 on a concrete store and request. -/
theorem C3_witness :
    Wf (step wStore (Req.createCategory "Books")) ∧
    catNamesDistinct (step wStore (Req.createCategory "Books")) :=
  C3_category_names_unique wStore (Req.createCategory "Books") (by decide)

end MarketplaceAPI
